import Mathlib

/-
  Verification development for the rs_filecopy copy engine
  (src/subprojects/rs_filecopy/src/copy/util.rs and
   src/subprojects/rs_filecopy/src/copy/filecopy.rs).

  Shallow embedding conventions:
  * u64 values are Nat; where overflow/underflow matters it is modelled
    explicitly (the size parser's multiplication is reduced mod 2^64, and
    the `size - transferred` u64 subtraction in copy_file's verification
    step is modelled with a dedicated panic outcome, since it panics in
    debug builds and wraps in release builds).
  * Fallible filesystem calls whose outcome depends on the outside world
    (seek, set_permissions, remove_file, read/write on abstract handles)
    are driven by explicit oracle fields in a world record.
  * Reads from a regular file at a position return min(requested,
    remaining) bytes; reads at or past end of file return 0 bytes.
  * Printing (progress handler, log lines) has no observable effect on
    the state handled here and is not modelled.
-/

set_option maxHeartbeats 1000000

namespace Filecopy

/-! ## Constants (util.rs:8-10, util.rs:141) -/

def KB : Nat := 1024
def MB : Nat := 1024 * KB
def GB : Nat := 1024 * MB

/-- 2^64, the number of values of a u64. -/
def U64LIM : Nat := 2 ^ 64

def DEFAULT_BUFFER_SIZE : Nat := 32 * KB

/-! ## Directory walker (util.rs:46-102)

A directory tree is modelled by `FsNode`/`FsEntries`.  A directory whose
listing (`std::fs::read_dir`) fails carries `readable = false`; an entry
whose `DirEntry::metadata()` call fails carries `metaOk = false` (this
also covers the entry-iteration error at util.rs:67-75, which aborts the
same way). -/

structure DirFile where
  path : String
  size : Nat
deriving DecidableEq, Repr

inductive WalkErr where
  | readDirFail (path : String)
  | metaFail (path : String)
deriving DecidableEq, Repr

mutual
inductive FsNode where
  | file (size : Nat)
  | dir (readable : Bool) (entries : FsEntries)
inductive FsEntries where
  | nil
  | cons (name : String) (metaOk : Bool) (node : FsNode) (rest : FsEntries)
end

/-- `Path::new("").join(name)` and `abspath.join(name)` on relative paths. -/
def joinRel (abspath name : String) : String :=
  if abspath = "" then name else abspath ++ "/" ++ name

def FsNode.isDirNode : FsNode → Bool
  | .file _ => false
  | .dir _ _ => true

/-- `metadata.len()` of a file entry. -/
def FsNode.fileSize : FsNode → Nat
  | .file sz => sz
  | .dir _ _ => 0

mutual
/-- Embedding of `list_dir_recursive_rel_util` (util.rs:50-102) applied to
the node found at `abspath`.  Note the recursive call at util.rs:91-93 is
wrapped in `if let Ok(..)`: an error from a subdirectory is dropped and
that subtree is silently skipped. -/
def list_dir_recursive_rel_util : FsNode → String → Except WalkErr (List DirFile)
  | .file _, _ => .ok []
  | .dir readable es, abspath =>
    if readable then walkEntries es abspath
    else .error (.readDirFail abspath)

/-- The `for entry in dir_reader` loop body of util.rs:66-100. -/
def walkEntries : FsEntries → String → Except WalkErr (List DirFile)
  | .nil, _ => .ok []
  | .cons name mOk node rest, abspath =>
    if mOk then
      let path := joinRel abspath name
      if node.isDirNode then
        match list_dir_recursive_rel_util node path with
        | .ok filelist =>
          match walkEntries rest abspath with
          | .ok more => .ok (filelist ++ more)
          | .error e => .error e
        | .error _ => walkEntries rest abspath
      else
        match walkEntries rest abspath with
        | .ok more => .ok (⟨path, node.fileSize⟩ :: more)
        | .error e => .error e
    else .error (.metaFail (joinRel abspath name))
end

/-- Embedding of `list_dir_recursive_rel` (util.rs:46-48): the walk starts
with the empty relative path. -/
def list_dir_recursive_rel (root : FsNode) : Except WalkErr (List DirFile) :=
  list_dir_recursive_rel_util root ""

/-! ## Size parser (util.rs:106-136) -/

/-- Numeric value of a decimal digit string. -/
def digitsToNat (ds : List Char) : Nat :=
  ds.foldl (fun a c => a * 10 + (c.toNat - 48)) 0

/-- `str::parse::<u64>` on a digit-only string followed by `unwrap_or(8)`
(util.rs:123-124): parsing fails exactly when the string is empty or its
value does not fit in a u64. -/
def parseU64OrDefault (ds : List Char) : Nat :=
  if ds.isEmpty then 8
  else if U64LIM ≤ digitsToNat ds then 8
  else digitsToNat ds

/-- The suffix match of util.rs:130-135, factored as the multiplier it
selects: `k/K ↦ KB`, `m/M ↦ MB`, `g/G ↦ GB`, anything else none. -/
def suffixUnit (s : String) : Option Nat :=
  if s = "k" ∨ s = "K" then some KB
  else if s = "m" ∨ s = "M" then some MB
  else if s = "g" ∨ s = "G" then some GB
  else none

/-- Embedding of `parse_size_from_str` (util.rs:106-136).  The leading
scan accepts exactly the bytes `b'0'..=b'9'` (= `Char.isDigit`); the
u64 multiplication is reduced mod 2^64. -/
def parse_size_from_str (str_size : String) : Nat :=
  let bs := str_size.data
  let ds := bs.takeWhile (fun c => c.isDigit)
  let size_num := parseU64OrDefault ds
  let size_suffix : String := ⟨bs.drop ds.length⟩
  match suffixUnit size_suffix with
  | some u => (size_num * u) % U64LIM
  | none => 8 * MB

/-! ## Chunked transfer on abstract handles (util.rs:140-160)

`copy_n` works on two open handles about which nothing is known, so the
embedding is driven by oracles: `reads` gives the outcome of each
successive `src.read` call (`.ok k` = the call returns `min k requested`
bytes, `.err` = the call fails; an exhausted list means end of stream,
i.e. every further read returns 0), and `writes` gives the outcome of
each successive `dst.write_all` call (an exhausted list means success).
`written` and `reqs` are ghost observations: the total number of bytes
written to `dst` and the sizes requested from `src`. -/

inductive ReadResult where
  | ok (cnt : Nat)
  | err
deriving DecidableEq, Repr

structure CopyNOut where
  res : Except Unit Nat
  written : Nat
  reqs : List Nat
deriving Repr

def copy_n_go (reads : List ReadResult) (writes : List Bool)
    (bytes_to_read bytes_to_read_local written : Nat) (reqs : List Nat) : CopyNOut :=
  let req := min bytes_to_read_local DEFAULT_BUFFER_SIZE
  match reads with
  | [] => ⟨.ok (bytes_to_read - bytes_to_read_local), written, reqs ++ [req]⟩
  | r :: rs =>
    match r with
    | .err => ⟨.ok (bytes_to_read - bytes_to_read_local), written, reqs ++ [req]⟩
    | .ok k =>
      let read_cnt := min k req
      if read_cnt = 0 ∨ bytes_to_read_local = 0 then
        ⟨.ok (bytes_to_read - bytes_to_read_local), written, reqs ++ [req]⟩
      else
        if writes.headD true then
          copy_n_go rs writes.tail bytes_to_read (bytes_to_read_local - read_cnt)
            (written + read_cnt) (reqs ++ [req])
        else ⟨.error (), written, reqs ++ [req]⟩

/-- Embedding of `copy_n` (util.rs:140-160). -/
def copy_n (reads : List ReadResult) (writes : List Bool) (bytes_to_read : Nat) : CopyNOut :=
  copy_n_go reads writes bytes_to_read bytes_to_read 0 []

/-! ## Chunked-transfer lemmas (for C5) -/

lemma headD_true_of_all {writes : List Bool} (hw : ∀ b ∈ writes, b = true) :
    writes.headD true = true := by
  cases writes with
  | nil => rfl
  | cons b ws => exact hw b (by simp)

lemma all_tail {writes : List Bool} (hw : ∀ b ∈ writes, b = true) :
    ∀ b ∈ writes.tail, b = true := by
  cases writes with
  | nil => simp
  | cons b ws => intro x hx; exact hw x (by simp at hx; simp [hx])

lemma copy_n_go_spec (reads : List ReadResult) :
    ∀ (writes : List Bool) (n l w : Nat) (reqs : List Nat), l ≤ n →
    ∀ c, (copy_n_go reads writes n l w reqs).res = .ok c →
      ∃ d, d ≤ l ∧ c = (n - l) + d ∧ (copy_n_go reads writes n l w reqs).written = w + d := by
  induction reads with
  | nil =>
    intro writes n l w reqs hln c hc
    simp only [copy_n_go] at hc ⊢
    refine ⟨0, by omega, ?_, by simp⟩
    have : n - l = c := by simpa using hc
    omega
  | cons r rs ih =>
    intro writes n l w reqs hln c hc
    match r with
    | .err =>
      simp only [copy_n_go] at hc ⊢
      refine ⟨0, by omega, ?_, by simp⟩
      have : n - l = c := by simpa using hc
      omega
    | .ok k =>
      simp only [copy_n_go] at hc ⊢
      by_cases h0 : min k (min l DEFAULT_BUFFER_SIZE) = 0 ∨ l = 0
      · rw [if_pos h0] at hc ⊢
        refine ⟨0, by omega, ?_, by simp⟩
        have : n - l = c := by simpa using hc
        omega
      · rw [if_neg h0] at hc ⊢
        have hcnt : min k (min l DEFAULT_BUFFER_SIZE) ≤ l := by omega
        by_cases hb : writes.headD true = true
        · rw [if_pos hb] at hc ⊢
          obtain ⟨d, hd1, hd2, hd3⟩ := ih writes.tail n (l - min k (min l DEFAULT_BUFFER_SIZE))
            (w + min k (min l DEFAULT_BUFFER_SIZE)) (reqs ++ [min l DEFAULT_BUFFER_SIZE])
            (by omega) c hc
          exact ⟨min k (min l DEFAULT_BUFFER_SIZE) + d, by omega, by omega, by omega⟩
        · rw [if_neg hb] at hc
          simp at hc

lemma copy_n_go_writes_ok (reads : List ReadResult) :
    ∀ (writes : List Bool) (n l w : Nat) (reqs : List Nat),
    (∀ b ∈ writes, b = true) →
    ∃ c, (copy_n_go reads writes n l w reqs).res = .ok c := by
  induction reads with
  | nil => intro writes n l w reqs _; exact ⟨n - l, rfl⟩
  | cons r rs ih =>
    intro writes n l w reqs hw
    match r with
    | .err => exact ⟨n - l, rfl⟩
    | .ok k =>
      simp only [copy_n_go]
      by_cases h0 : min k (min l DEFAULT_BUFFER_SIZE) = 0 ∨ l = 0
      · rw [if_pos h0]; exact ⟨n - l, rfl⟩
      · rw [if_neg h0, if_pos (headD_true_of_all hw)]
        exact ih writes.tail n _ _ _ (all_tail hw)

lemma copy_n_go_reqs (reads : List ReadResult) :
    ∀ (writes : List Bool) (n l w : Nat) (reqs : List Nat),
    (∀ x ∈ reqs, x ≤ DEFAULT_BUFFER_SIZE) →
    ∀ x ∈ (copy_n_go reads writes n l w reqs).reqs, x ≤ DEFAULT_BUFFER_SIZE := by
  induction reads with
  | nil =>
    intro writes n l w reqs hr x hx
    simp only [copy_n_go, List.mem_append, List.mem_singleton] at hx
    rcases hx with hx | hx
    · exact hr x hx
    · subst hx; omega
  | cons r rs ih =>
    intro writes n l w reqs hr x hx
    have hstep : ∀ y ∈ reqs ++ [min l DEFAULT_BUFFER_SIZE], y ≤ DEFAULT_BUFFER_SIZE := by
      intro y hy
      rcases List.mem_append.mp hy with hy | hy
      · exact hr y hy
      · simp at hy; subst hy; omega
    match r with
    | .err =>
      simp only [copy_n_go] at hx
      exact hstep x hx
    | .ok k =>
      simp only [copy_n_go] at hx
      by_cases h0 : min k (min l DEFAULT_BUFFER_SIZE) = 0 ∨ l = 0
      · rw [if_pos h0] at hx; exact hstep x hx
      · rw [if_neg h0] at hx
        by_cases hb : writes.headD true = true
        · rw [if_pos hb] at hx
          exact ih writes.tail n _ _ _ hstep x hx
        · rw [if_neg hb] at hx
          exact hstep x hx

/-- C5: `copy_n` transfers at most N bytes, each read request is bounded
by min(remaining, 32KiB) (so never exceeds 32KiB), and on Ok it returns
exactly the number of bytes written to the destination (possibly less
than N); if every destination write succeeds the result is Ok even when
reads fail (read errors are silently swallowed, ending with the partial
count), a zero-byte read terminates immediately with Ok, and a failing
destination write propagates immediately as an error. -/
theorem c5_copy_n_spec :
    (∀ (reads : List ReadResult) (writes : List Bool) (n c : Nat),
      (copy_n reads writes n).res = .ok c →
      c = (copy_n reads writes n).written ∧ c ≤ n)
    ∧ (∀ (reads : List ReadResult) (writes : List Bool) (n : Nat),
      (∀ b ∈ writes, b = true) → ∃ c, (copy_n reads writes n).res = .ok c)
    ∧ (∀ (reads : List ReadResult) (writes : List Bool) (n : Nat),
      ∀ x ∈ (copy_n reads writes n).reqs, x ≤ DEFAULT_BUFFER_SIZE)
    ∧ (∀ (rs : List ReadResult) (ws : List Bool) (n : Nat),
      (copy_n (.ok 0 :: rs) ws n).res = .ok 0)
    ∧ (∀ (rs : List ReadResult) (ws : List Bool) (n k : Nat),
      0 < k → 0 < n → (copy_n (.ok k :: rs) (false :: ws) n).res = .error ()) := by
  refine ⟨?_, ?_, ?_, ?_, ?_⟩
  · intro reads writes n c hc
    unfold copy_n at hc ⊢
    obtain ⟨d, hd1, hd2, hd3⟩ := copy_n_go_spec reads writes n n 0 [] (le_refl n) c hc
    constructor <;> omega
  · intro reads writes n hw
    exact copy_n_go_writes_ok reads writes n n 0 [] hw
  · intro reads writes n x hx
    exact copy_n_go_reqs reads writes n n 0 [] (by simp) x hx
  · intro rs ws n
    simp [copy_n, copy_n_go]
  · intro rs ws n k hk hn
    have hmin : ¬(min k (min n DEFAULT_BUFFER_SIZE) = 0 ∨ n = 0) := by
      simp only [DEFAULT_BUFFER_SIZE, KB]
      omega
    simp only [copy_n, copy_n_go]
    rw [if_neg hmin]
    simp

theorem c5_copy_n_spec_witness :
    ((8 : Nat) = (copy_n [.ok 3, .ok 5] [] 100).written ∧ (8 : Nat) ≤ 100)
    ∧ (∃ c, (copy_n [.ok 3, .err] [true] 100).res = .ok c)
    ∧ (5 : Nat) ≤ DEFAULT_BUFFER_SIZE
    ∧ (copy_n [.ok 0] [] 7).res = .ok 0
    ∧ (copy_n [.ok 2] [false] 3).res = .error () :=
  ⟨c5_copy_n_spec.1 [.ok 3, .ok 5] [] 100 8 (by rfl),
    c5_copy_n_spec.2.1 [.ok 3, .err] [true] 100 (by decide),
    c5_copy_n_spec.2.2.1 [.ok 3] [] 5 5 (by decide),
    c5_copy_n_spec.2.2.2.1 [] [] 7,
    c5_copy_n_spec.2.2.2.2 [] [] 3 2 (by decide) (by decide)⟩

/-! ## Walker result (C1) -/

/-- A tree whose root lists fine and holds files `a` (1 byte) and `b`
(2 bytes) plus a subdirectory `sub` whose own listing fails. -/
def c1tree : FsNode :=
  .dir true (.cons "a" true (.file 1)
    (.cons "sub" true (.dir false .nil)
      (.cons "b" true (.file 2) .nil)))

/-- C1: the claim (and the function's own doc comment, util.rs:42-45)
says any unlistable directory or unreadable metadata aborts the whole
walk with an error and no partial result.  The code contradicts this:
the recursive call at util.rs:91 is wrapped in `if let Ok(..)`, so an
error inside a subdirectory is silently dropped.  Here the subtree
`sub` fails to list, yet the walk returns Ok with the partial result
holding just the two readable files. -/
theorem c1_walker_swallows_subtree_error :
    list_dir_recursive_rel_util (FsNode.dir false FsEntries.nil) "sub"
        = .error (.readDirFail "sub")
    ∧ list_dir_recursive_rel c1tree = .ok [⟨"a", 1⟩, ⟨"b", 2⟩] := by
  constructor <;> rfl

/-! ## Size-parser results (C7) -/

lemma takeWhile_append_all {p : Char → Bool} {ds rest : List Char}
    (h1 : ∀ c ∈ ds, p c = true)
    (h2 : ∀ c, rest.head? = some c → p c = false) :
    (ds ++ rest).takeWhile p = ds := by
  induction ds with
  | nil =>
    cases rest with
    | nil => rfl
    | cons r rs => simp [List.takeWhile_cons, h2 r rfl]
  | cons d ds ih =>
    have hd := h1 d (by simp)
    simp only [List.cons_append, List.takeWhile_cons, hd, if_true]
    rw [ih (fun c hc => h1 c (by simp [hc]))]

lemma suffixUnit_le {s : String} {u : Nat} (h : suffixUnit s = some u) : u ≤ GB := by
  unfold suffixUnit at h
  split at h
  · simp only [Option.some.injEq] at h; subst h; decide
  · split at h
    · simp only [Option.some.injEq] at h; subst h; decide
    · split at h
      · simp only [Option.some.injEq] at h; subst h; decide
      · exact absurd h (by simp)

lemma parse_size_split {ds rest : List Char}
    (h1 : ∀ c ∈ ds, c.isDigit = true)
    (h2 : ∀ c, rest.head? = some c → c.isDigit = false) :
    parse_size_from_str ⟨ds ++ rest⟩ =
      (match suffixUnit ⟨rest⟩ with
       | some u => (parseU64OrDefault ds * u) % U64LIM
       | none => 8 * MB) := by
  unfold parse_size_from_str
  simp only [takeWhile_append_all h1 h2]
  congr 1
  simp [List.drop_append_eq_append_drop]

/-- C7 (amended): for a parsable digit run (nonempty, value < 2^64) with
a recognized suffix the parser returns digits × unit (when the u64
product does not overflow); an unrecognized suffix yields 8 MiB; an
unparsable digit run (empty, or ≥ 2^64) defaults the number to 8, so a
recognized suffix then yields 8 × unit — not 8 MiB as claimed. -/
theorem c7_parse_size_amended :
    (∀ (ds rest : List Char) (u : Nat),
      ds ≠ [] → (∀ c ∈ ds, c.isDigit = true) →
      (∀ c, rest.head? = some c → c.isDigit = false) →
      digitsToNat ds < U64LIM →
      suffixUnit ⟨rest⟩ = some u →
      digitsToNat ds * u < U64LIM →
      parse_size_from_str ⟨ds ++ rest⟩ = digitsToNat ds * u)
    ∧ (∀ (ds rest : List Char),
      (∀ c ∈ ds, c.isDigit = true) →
      (∀ c, rest.head? = some c → c.isDigit = false) →
      suffixUnit ⟨rest⟩ = none →
      parse_size_from_str ⟨ds ++ rest⟩ = 8 * MB)
    ∧ (∀ (ds rest : List Char) (u : Nat),
      (ds = [] ∨ U64LIM ≤ digitsToNat ds) →
      (∀ c ∈ ds, c.isDigit = true) →
      (∀ c, rest.head? = some c → c.isDigit = false) →
      suffixUnit ⟨rest⟩ = some u →
      parse_size_from_str ⟨ds ++ rest⟩ = 8 * u) := by
  refine ⟨?_, ?_, ?_⟩
  · intro ds rest u hne h1 h2 hlim hu hprod
    rw [parse_size_split h1 h2, hu]
    have : parseU64OrDefault ds = digitsToNat ds := by
      unfold parseU64OrDefault
      rw [if_neg (by simpa using hne), if_neg (by omega)]
    rw [this]
    exact Nat.mod_eq_of_lt hprod
  · intro ds rest h1 h2 hu
    rw [parse_size_split h1 h2, hu]
  · intro ds rest u hbad h1 h2 hu
    rw [parse_size_split h1 h2, hu]
    have h8 : parseU64OrDefault ds = 8 := by
      unfold parseU64OrDefault
      rcases hbad with h | h
      · rw [if_pos (by simp [h])]
      · by_cases he : ds.isEmpty
        · rw [if_pos he]
        · rw [if_neg he, if_pos h]
    rw [h8]
    show 8 * u % U64LIM = 8 * u
    have hle := suffixUnit_le hu
    have hsm : 8 * u < U64LIM := by
      have : (8 : Nat) * GB < U64LIM := by decide
      omega
    exact Nat.mod_eq_of_lt hsm

/-- C7 counterexample: the input "k" has an unparsable (empty) digit run
and a recognized suffix; the claim says the result is exactly 8 MiB, but
the code returns 8 × 1024 = 8 KiB. -/
theorem c7_counterexample_suffix_only :
    parse_size_from_str "k" = 8 * KB ∧ 8 * KB ≠ 8 * MB := by
  constructor
  · rfl
  · decide

theorem c7_parse_size_amended_witness :
    parse_size_from_str "10k" = 10240 ∧
    parse_size_from_str "5x" = 8 * MB ∧
    parse_size_from_str "g" = 8 * GB := by
  refine ⟨?_, ?_, ?_⟩
  · have h := c7_parse_size_amended.1 ['1', '0'] ['k'] 1024 (by decide) (by decide)
      (by intro c hc; cases hc; decide) (by decide) (by decide) (by decide)
    exact h
  · have h := c7_parse_size_amended.2.1 ['5'] ['x'] (by decide)
      (by intro c hc; cases hc; decide) (by decide)
    exact h
  · have h := c7_parse_size_amended.2.2 [] ['g'] GB (Or.inl rfl) (by decide)
      (by intro c hc; cases hc; decide) (by decide)
    exact h


structure FsFile where
  content : List Nat
  mode : Nat
deriving DecidableEq, Repr

structure DstFile where
  content : List Nat
  pos : Nat
  append : Bool
  mode : Nat
deriving DecidableEq, Repr

def writeBytes (d : DstFile) (bs : List Nat) : DstFile :=
  if d.append then { d with content := d.content ++ bs }
  else { d with
    content := d.content.take d.pos ++ (bs ++ d.content.drop (d.pos + bs.length)),
    pos := d.pos + bs.length }

def DstInv (d : DstFile) : Prop := d.append = true ∨ d.pos ≤ d.content.length

def copy_n_det (src : List Nat) (pos : Nat) (dst : DstFile) (bytes_to_read : Nat) :
    Nat × DstFile :=
  let req := min bytes_to_read DEFAULT_BUFFER_SIZE
  let read_cnt := min req (src.length - pos)
  if h : read_cnt = 0 ∨ bytes_to_read = 0 then (0, dst)
  else
    let chunk := (src.drop pos).take read_cnt
    let out := copy_n_det src (pos + read_cnt) (writeBytes dst chunk) (bytes_to_read - read_cnt)
    (read_cnt + out.1, out.2)
termination_by bytes_to_read
decreasing_by
  simp only [not_or] at h
  omega

lemma take_append_chunk {c a rest : List Nat} {p : Nat} (hp : p ≤ c.length) :
    (c.take p ++ (a ++ rest)).take (p + a.length) = c.take p ++ a := by
  have h1 : (c.take p).length = p := by simp; omega
  rw [List.take_append_eq_append_take, h1, List.take_take]
  have hmin : min (p + a.length) p = p := by omega
  have h2 : p + a.length - p = a.length := by omega
  rw [hmin, h2, List.take_left]

lemma drop_append_chunk {c a : List Nat} {p n : Nat} (hp : p ≤ c.length)
    (hn : p + a.length ≤ n) :
    (c.take p ++ (a ++ c.drop (p + a.length))).drop n = c.drop n := by
  have h1 : (c.take p).length = p := by simp; omega
  rw [List.drop_append_eq_append_drop, List.drop_eq_nil_of_le (by rw [h1]; omega),
    List.nil_append, h1, List.drop_append_eq_append_drop,
    List.drop_eq_nil_of_le (by omega : a.length ≤ n - p), List.nil_append, List.drop_drop]
  congr 1
  omega

lemma writeBytes_nil (d : DstFile) : writeBytes d [] = d := by
  rcases d with ⟨c, p, a, m⟩
  unfold writeBytes
  cases a with
  | true => simp
  | false => simp [List.take_append_drop]

lemma writeBytes_inv {d : DstFile} (h : DstInv d) (bs : List Nat) :
    DstInv (writeBytes d bs) := by
  rcases d with ⟨c, p, a, m⟩
  unfold DstInv at h ⊢
  unfold writeBytes
  cases a with
  | true => simp
  | false =>
    simp only [Bool.false_eq_true, false_or] at h
    simp only [if_neg (by simp : ¬((⟨c, p, false, m⟩ : DstFile).append = true))]
    right
    simp only [List.length_append, List.length_take, List.length_drop]
    omega

lemma writeBytes_comp {d : DstFile} (h : DstInv d) (a b : List Nat) :
    writeBytes (writeBytes d a) b = writeBytes d (a ++ b) := by
  rcases d with ⟨c, p, ap, m⟩
  cases ap with
  | true =>
    unfold writeBytes
    simp
  | false =>
    unfold DstInv at h
    simp only [Bool.false_eq_true, false_or] at h
    unfold writeBytes
    simp only [if_neg (by simp : ¬((⟨c, p, false, m⟩ : DstFile).append = true)), if_neg
      (by simp : ¬(false = true))]
    simp only [DstFile.mk.injEq, and_true]
    constructor
    · rw [take_append_chunk h, drop_append_chunk h (by omega)]
      simp only [List.append_assoc, List.length_append, Nat.add_assoc]
    · simp only [List.length_append]
      omega

lemma copy_n_det_fst (n : Nat) : ∀ (src : List Nat) (pos : Nat) (dst : DstFile),
    (copy_n_det src pos dst n).1 = min n (src.length - pos) := by
  induction n using Nat.strong_induction_on with
  | _ n ih =>
    intro src pos dst
    unfold copy_n_det
    by_cases h0 : min (min n DEFAULT_BUFFER_SIZE) (src.length - pos) = 0 ∨ n = 0
    · rw [dif_pos h0]
      have hbuf : 0 < DEFAULT_BUFFER_SIZE := by decide
      simp only []
      omega
    · rw [dif_neg h0]
      simp only [not_or] at h0
      have hrec := ih (n - min (min n DEFAULT_BUFFER_SIZE) (src.length - pos)) (by omega)
        src (pos + min (min n DEFAULT_BUFFER_SIZE) (src.length - pos))
        (writeBytes dst ((src.drop pos).take (min (min n DEFAULT_BUFFER_SIZE) (src.length - pos))))
      simp only [hrec]
      omega

lemma copy_n_det_spec (n : Nat) : ∀ (src : List Nat) (pos : Nat) (dst : DstFile), DstInv dst →
    copy_n_det src pos dst n =
      (min n (src.length - pos),
        writeBytes dst ((src.drop pos).take (min n (src.length - pos)))) := by
  induction n using Nat.strong_induction_on with
  | _ n ih =>
    intro src pos dst hinv
    unfold copy_n_det
    by_cases h0 : min (min n DEFAULT_BUFFER_SIZE) (src.length - pos) = 0 ∨ n = 0
    · rw [dif_pos h0]
      have hbuf : 0 < DEFAULT_BUFFER_SIZE := by decide
      have hz : min n (src.length - pos) = 0 := by omega
      rw [hz]
      simp [writeBytes_nil]
    · rw [dif_neg h0]
      simp only [not_or] at h0
      set cnt := min (min n DEFAULT_BUFFER_SIZE) (src.length - pos) with hcnt
      have hrec := ih (n - cnt) (by omega) src (pos + cnt)
        (writeBytes dst ((src.drop pos).take cnt)) (writeBytes_inv hinv _)
      simp only [hrec, Prod.mk.injEq]
      constructor
      · omega
      · rw [writeBytes_comp hinv]
        congr 1
        have hdd : src.drop (pos + cnt) = (src.drop pos).drop cnt := by
          rw [List.drop_drop]
        rw [hdd, ← List.take_add]
        congr 1
        omega

structure LoopState where
  pos : Nat
  bytes_transferred : Nat
  transferred : Nat
  dst : DstFile
deriving Repr

/-- The `loop` of copy_file (filecopy.rs:374-414): repeatedly invoke
copy_n with the configured block size, stopping when a call transfers 0
bytes or the local count already equals the source size; after each
chunk the local counter `bytes_transferred` and the global counter
`stats_store.transferred` both advance by the bytes copied (the
progress callback only prints and is not modelled). -/
def copyLoop (src : List Nat) (block_size size : Nat) (s : LoopState) : LoopState :=
  let r := copy_n_det src s.pos s.dst block_size
  if h : r.1 = 0 ∨ s.bytes_transferred = size then { s with dst := r.2 }
  else
    copyLoop src block_size size
      { pos := s.pos + r.1, bytes_transferred := s.bytes_transferred + r.1,
        transferred := s.transferred + r.1, dst := r.2 }
termination_by src.length - s.pos
decreasing_by
  have h2 : ¬((copy_n_det src s.pos s.dst block_size).1 = 0 ∨
      s.bytes_transferred = size) := h
  simp only [not_or] at h2
  have hf := copy_n_det_fst block_size src s.pos s.dst
  show src.length - (s.pos + (copy_n_det src s.pos s.dst block_size).1) <
    src.length - s.pos
  omega

lemma copy_n_det_done {src : List Nat} {pos : Nat} {dst : DstFile} {n : Nat}
    (hinv : DstInv dst) (hpos : src.length ≤ pos) :
    copy_n_det src pos dst n = (0, dst) := by
  have h := copy_n_det_spec n src pos dst hinv
  have hz : min n (src.length - pos) = 0 := by omega
  rw [hz, List.take_zero, writeBytes_nil] at h
  exact h

lemma copy_n_det_zero (src : List Nat) (pos : Nat) (dst : DstFile) :
    copy_n_det src pos dst 0 = (0, dst) := by
  unfold copy_n_det
  simp

lemma copyLoop_done {src : List Nat} {block_size size : Nat} {s : LoopState}
    (hinv : DstInv s.dst) (hpos : src.length ≤ s.pos) :
    copyLoop src block_size size s = s := by
  unfold copyLoop
  simp only [copy_n_det_done hinv hpos]
  rw [dif_pos (Or.inl trivial)]

lemma copyLoop_zero_block {src : List Nat} {size : Nat} {s : LoopState} :
    copyLoop src 0 size s = s := by
  unfold copyLoop
  simp only [copy_n_det_zero]
  rw [dif_pos (Or.inl trivial)]

lemma copyLoop_run_aux (src : List Nat) (block_size : Nat) :
    ∀ (fuel : Nat) (s : LoopState), src.length - s.pos ≤ fuel →
    0 < block_size → DstInv s.dst → s.pos ≤ src.length →
    s.bytes_transferred = s.pos →
    copyLoop src block_size src.length s =
      ⟨src.length, src.length, s.transferred + (src.length - s.pos),
        writeBytes s.dst (src.drop s.pos)⟩ := by
  intro fuel
  induction fuel with
  | zero =>
    intro s hf hb hinv hpos heq
    rcases s with ⟨pos, bt, t, dst⟩
    dsimp only at hf hinv hpos heq ⊢
    rw [copyLoop_done hinv (show src.length ≤ pos by omega)]
    have h1 : src.length - pos = 0 := by omega
    have h2 : src.drop pos = [] := List.drop_eq_nil_of_le (by omega)
    rw [h1, h2, writeBytes_nil, Nat.add_zero]
    have h3 : pos = src.length := by omega
    subst h3
    rw [heq]
  | succ fuel ih =>
    intro s hf hb hinv hpos heq
    rcases s with ⟨pos, bt, t, dst⟩
    dsimp only at hf hinv hpos heq ⊢
    by_cases hend : src.length ≤ pos
    · rw [copyLoop_done hinv hend]
      have h1 : src.length - pos = 0 := by omega
      have h2 : src.drop pos = [] := List.drop_eq_nil_of_le (by omega)
      rw [h1, h2, writeBytes_nil, Nat.add_zero]
      have h3 : pos = src.length := by omega
      subst h3
      rw [heq]
    · push_neg at hend
      unfold copyLoop
      have hr := copy_n_det_spec block_size src pos dst hinv
      simp only [hr]
      have hcond : ¬(min block_size (src.length - pos) = 0 ∨ bt = src.length) := by
        simp only [not_or]
        constructor
        · omega
        · omega
      rw [dif_neg hcond]
      rw [ih ⟨pos + min block_size (src.length - pos),
            bt + min block_size (src.length - pos),
            t + min block_size (src.length - pos),
            writeBytes dst ((src.drop pos).take (min block_size (src.length - pos)))⟩
          (show src.length - (pos + min block_size (src.length - pos)) ≤ fuel by omega) hb
          (writeBytes_inv hinv _)
          (show pos + min block_size (src.length - pos) ≤ src.length by omega)
          (show bt + min block_size (src.length - pos) =
            pos + min block_size (src.length - pos) by omega)]
      dsimp only
      simp only [LoopState.mk.injEq, true_and]
      constructor
      · omega
      · rw [writeBytes_comp hinv]
        have hdd : src.drop (pos + min block_size (src.length - pos)) =
            (src.drop pos).drop (min block_size (src.length - pos)) :=
          (List.drop_drop _ _ _).symm
        rw [hdd, List.take_append_drop]

lemma copyLoop_run {src : List Nat} {block_size : Nat} {s : LoopState}
    (hb : 0 < block_size) (hinv : DstInv s.dst) (hpos : s.pos ≤ src.length)
    (heq : s.bytes_transferred = s.pos) :
    copyLoop src block_size src.length s =
      ⟨src.length, src.length, s.transferred + (src.length - s.pos),
        writeBytes s.dst (src.drop s.pos)⟩ :=
  copyLoop_run_aux src block_size (src.length - s.pos) s (le_refl _) hb hinv hpos heq

/-! ## copy_file (filecopy.rs:262-452)

The world record drives the filesystem calls copy_file makes whose
outcome is not determined by the modelled state: `src = none` means
`File::open` fails (metadata of a successfully opened file is modelled
as available, filecopy.rs:275-283); `dstExisting` is the result of the
`std::fs::metadata(dst)` probe; `seekOk` is the outcome of the resume
seek; `permOk` the outcome of `set_permissions`; `removeOk` the outcome
of the `remove_file` call issued by the callers of copy_file.
`create_dir_all` (filecopy.rs:303-314) and the destination open
(filecopy.rs:334-342) are modelled as succeeding. -/

structure Stats where
  transferred : Nat
  total : Nat
deriving DecidableEq, Repr

structure Opts where
  block_size : Nat
  force : Bool
  show_progress : Bool
  recursive : Bool
  show_stats : Bool
  remove : Bool
  no_dir_err : Bool
  verbose : Bool
  resume : Bool
deriving Repr

structure FileWorld where
  src : Option FsFile
  dstExisting : Option FsFile
  seekOk : Bool
  permOk : Bool
  removeOk : Bool
deriving Repr

inductive CopyErr where
  | openSrcFail
  | alreadyExists
  | seekFail
  | missingBytes (n : Nat)
  | underflowPanic
  | permSyncFail
  | removeSrcFail
  | listDirFail (e : WalkErr)
  | deleteDirFail
  | sameSrcDst
  | statSrcFail
  | notRecursive
  | dirOverFile
  | statsMismatch (transferred total : Nat)
deriving DecidableEq, Repr

/-- Result of one copy_file call: the returned value, the destination
file as left on disk (`none` = never touched/created here it keeps the
probe result), the updated stats store, and two ghost observations:
`localCount` = final value of the local `bytes_transferred` counter and
`seeded` = the amount pre-loaded into it by the resume logic. -/
structure FileOut where
  result : Except CopyErr Nat
  dst : Option FsFile
  stats : Stats
  localCount : Nat
  seeded : Nat
deriving Repr

/-- The destination `OpenOptions` call (filecopy.rs:320-343):
`create(true).write(true)` with mode bits from the source — `mode` only
takes effect if the file is created, so a pre-existing destination keeps
its own bytes (no `truncate`!) and mode; `append(true)` is set only in
resume mode when the destination already exists. -/
def openDst (srcF : FsFile) (dst_file_metadata : Option FsFile) (resume : Bool) : DstFile :=
  match dst_file_metadata with
  | some d => { content := d.content, pos := 0, append := resume, mode := d.mode }
  | none => { content := [], pos := 0, append := false, mode := srcF.mode }

/-- Tail of copy_file from the transfer loop on (filecopy.rs:374-451):
run the loop, then the byte-count verification — where `size - bytes`
on u64 underflows when bytes > size (panic in debug builds, modelled by
the `underflowPanic` outcome; wraps to a garbage count in release) —
then the permission sync and the final Ok. -/
def copy_file_verify (w : FileWorld) (stats : Stats) (srcF : FsFile)
    (sEnd : LoopState) (seed : Nat) : FileOut :=
  if sEnd.bytes_transferred ≠ srcF.content.length then
    if srcF.content.length < sEnd.bytes_transferred then
      ⟨.error .underflowPanic, some ⟨sEnd.dst.content, sEnd.dst.mode⟩,
        { stats with transferred := sEnd.transferred }, sEnd.bytes_transferred, seed⟩
    else
      ⟨.error (.missingBytes (srcF.content.length - sEnd.bytes_transferred)),
        some ⟨sEnd.dst.content, sEnd.dst.mode⟩,
        { stats with transferred := sEnd.transferred }, sEnd.bytes_transferred, seed⟩
  else if !w.permOk then
    ⟨.error .permSyncFail, some ⟨sEnd.dst.content, sEnd.dst.mode⟩,
      { stats with transferred := sEnd.transferred }, sEnd.bytes_transferred, seed⟩
  else
    ⟨.ok sEnd.bytes_transferred, some ⟨sEnd.dst.content, srcF.mode⟩,
      { stats with transferred := sEnd.transferred }, sEnd.bytes_transferred, seed⟩

def copy_file_loop (w : FileWorld) (opts : Opts) (stats : Stats)
    (srcF : FsFile) (dst0 : DstFile) (pos0 seed : Nat) : FileOut :=
  copy_file_verify w stats srcF
    (copyLoop srcF.content opts.block_size srcF.content.length
      { pos := pos0, bytes_transferred := seed, transferred := stats.transferred, dst := dst0 })
    seed

/-- Destination open plus resume handling (filecopy.rs:320-366): open
the destination, then in resume mode with a pre-existing destination
seek the source to the destination length (error if seeking fails) and
seed the local and global transferred counters with that length. -/
def copy_file_body (w : FileWorld) (opts : Opts) (stats : Stats)
    (srcF : FsFile) (dst_file_metadata : Option FsFile) : FileOut :=
  let dst0 := openDst srcF dst_file_metadata opts.resume
  match dst_file_metadata with
  | some d =>
    if opts.resume then
      if w.seekOk then
        copy_file_loop w opts
          { stats with transferred := stats.transferred + d.content.length }
          srcF dst0 d.content.length d.content.length
      else ⟨.error .seekFail, some ⟨dst0.content, dst0.mode⟩, stats, 0, 0⟩
    else copy_file_loop w opts stats srcF dst0 0 0
  | none => copy_file_loop w opts stats srcF dst0 0 0

/-- Embedding of `copy_file` (filecopy.rs:262-452): open the source,
probe the destination (abort with AlreadyExists when it exists and
neither force nor resume is set), then open/resume/transfer/verify. -/
def copy_file (w : FileWorld) (opts : Opts) (stats : Stats) : FileOut :=
  match w.src with
  | none => ⟨.error .openSrcFail, w.dstExisting, stats, 0, 0⟩
  | some srcF =>
    match w.dstExisting with
    | some dmeta =>
      if !opts.force && !opts.resume then
        ⟨.error .alreadyExists, w.dstExisting, stats, 0, 0⟩
      else copy_file_body w opts stats srcF (some dmeta)
    | none => copy_file_body w opts stats srcF none

lemma copy_file_loop_run {w : FileWorld} {opts : Opts} {stats : Stats}
    {srcF : FsFile} {dst0 : DstFile} {pos0 : Nat}
    (hb : 0 < opts.block_size) (hinv : DstInv dst0) (hpos : pos0 ≤ srcF.content.length) :
    copy_file_loop w opts stats srcF dst0 pos0 pos0 =
      if w.permOk then
        ⟨.ok srcF.content.length,
          some ⟨(writeBytes dst0 (srcF.content.drop pos0)).content, srcF.mode⟩,
          { stats with transferred := stats.transferred + (srcF.content.length - pos0) },
          srcF.content.length, pos0⟩
      else
        ⟨.error .permSyncFail,
          some ⟨(writeBytes dst0 (srcF.content.drop pos0)).content,
            (writeBytes dst0 (srcF.content.drop pos0)).mode⟩,
          { stats with transferred := stats.transferred + (srcF.content.length - pos0) },
          srcF.content.length, pos0⟩ := by
  unfold copy_file_loop copy_file_verify
  have hrun := @copyLoop_run srcF.content opts.block_size
    ⟨pos0, pos0, stats.transferred, dst0⟩ hb hinv hpos rfl
  simp only [hrun]
  rw [if_neg (show ¬(srcF.content.length ≠ srcF.content.length) by simp)]
  cases hperm : w.permOk
  · rw [if_pos (by simp [hperm]), if_neg (by simp [hperm])]
  · rw [if_neg (by simp [hperm]), if_pos (by simp [hperm])]

lemma copy_file_loop_overshoot {w : FileWorld} {opts : Opts} {stats : Stats}
    {srcF : FsFile} {dst0 : DstFile} {pos0 : Nat}
    (hinv : DstInv dst0) (hover : srcF.content.length < pos0) :
    copy_file_loop w opts stats srcF dst0 pos0 pos0 =
      ⟨.error .underflowPanic, some ⟨dst0.content, dst0.mode⟩, stats, pos0, pos0⟩ := by
  unfold copy_file_loop copy_file_verify
  have hdone := @copyLoop_done srcF.content opts.block_size srcF.content.length
    ⟨pos0, pos0, stats.transferred, dst0⟩ hinv (le_of_lt hover)
  simp only [hdone]
  rw [if_pos (show pos0 ≠ srcF.content.length by omega),
    if_pos (show srcF.content.length < pos0 from hover)]

lemma copy_file_loop_zero_block {w : FileWorld} {opts : Opts} {stats : Stats}
    {srcF : FsFile} {dst0 : DstFile} {pos0 : Nat}
    (hb : opts.block_size = 0) (hunder : pos0 < srcF.content.length) :
    copy_file_loop w opts stats srcF dst0 pos0 pos0 =
      ⟨.error (.missingBytes (srcF.content.length - pos0)),
        some ⟨dst0.content, dst0.mode⟩, stats, pos0, pos0⟩ := by
  unfold copy_file_loop copy_file_verify
  have hzb := @copyLoop_zero_block srcF.content srcF.content.length
    ⟨pos0, pos0, stats.transferred, dst0⟩
  simp only [hb, hzb]
  rw [if_pos (show pos0 ≠ srcF.content.length by omega),
    if_neg (show ¬(srcF.content.length < pos0) by omega)]

lemma copy_file_verify_localCount (w : FileWorld) (stats : Stats) (srcF : FsFile)
    (sEnd : LoopState) (seed : Nat) :
    (copy_file_verify w stats srcF sEnd seed).localCount = sEnd.bytes_transferred := by
  unfold copy_file_verify
  by_cases h1 : sEnd.bytes_transferred ≠ srcF.content.length
  · rw [if_pos h1]
    by_cases h2 : srcF.content.length < sEnd.bytes_transferred
    · rw [if_pos h2]
    · rw [if_neg h2]
  · rw [if_neg h1]
    by_cases h3 : (!w.permOk) = true
    · rw [if_pos h3]
    · rw [if_neg h3]

lemma copy_file_verify_missing (w : FileWorld) (stats : Stats) (srcF : FsFile)
    (sEnd : LoopState) (seed : Nat)
    (h : sEnd.bytes_transferred < srcF.content.length) :
    (copy_file_verify w stats srcF sEnd seed).result =
      .error (.missingBytes (srcF.content.length - sEnd.bytes_transferred)) := by
  unfold copy_file_verify
  rw [if_pos (by omega), if_neg (by omega)]

lemma copy_file_routes (w : FileWorld) (opts : Opts) (stats : Stats) (srcF : FsFile)
    (hsrc : w.src = some srcF)
    (hguard : w.dstExisting = none ∨ opts.force = true ∨ opts.resume = true)
    (hseek : ∀ d, w.dstExisting = some d → opts.resume = true → w.seekOk = true) :
    ∃ (stats2 : Stats) (dst0 : DstFile) (pos0 : Nat),
      copy_file w opts stats = copy_file_loop w opts stats2 srcF dst0 pos0 pos0 := by
  unfold copy_file copy_file_body
  rw [hsrc]
  cases hdst : w.dstExisting with
  | none =>
    exact ⟨stats, openDst srcF none opts.resume, 0, rfl⟩
  | some d =>
    have hfr : (!opts.force && !opts.resume) = false := by
      rcases hguard with h | h | h
      · rw [hdst] at h; cases h
      · simp [h]
      · simp [h]
    simp only [hfr, Bool.false_eq_true, if_false]
    cases hres : opts.resume with
    | false =>
      simp only [hres, Bool.false_eq_true, if_false]
      exact ⟨stats, openDst srcF (some d) false, 0, rfl⟩
    | true =>
      have hsk : w.seekOk = true := hseek d hdst hres
      simp only [hres, hsk, if_true]
      exact ⟨{ stats with transferred := stats.transferred + d.content.length },
        openDst srcF (some d) true, d.content.length, rfl⟩

/-- C8: when the destination already exists and neither force nor resume
is set, copy_file fails with the AlreadyExists error before any byte is
written: the destination and the stats store are returned unchanged and
the local transferred count is 0. -/
theorem c8_already_exists_guard :
    ∀ (w : FileWorld) (opts : Opts) (stats : Stats) (f d : FsFile),
    w.src = some f → w.dstExisting = some d →
    opts.force = false → opts.resume = false →
    copy_file w opts stats = ⟨.error .alreadyExists, some d, stats, 0, 0⟩ := by
  intro w opts stats f d hsrc hdst hf hr
  unfold copy_file
  simp only [hsrc, hdst, hf, hr, Bool.not_false, Bool.and_self, if_true]

theorem c8_already_exists_guard_witness :
    copy_file ⟨some ⟨[1], 0⟩, some ⟨[2], 0⟩, true, true, true⟩
        ⟨8, false, false, false, false, false, false, false, false⟩ ⟨0, 1⟩ =
      ⟨.error .alreadyExists, some ⟨[2], 0⟩, ⟨0, 1⟩, 0, 0⟩ :=
  c8_already_exists_guard _ _ _ ⟨[1], 0⟩ ⟨[2], 0⟩ rfl rfl rfl rfl

/-- C10: in resume mode with a pre-existing destination longer than the
source, the local counter is seeded with the destination length (greater
than the source size) and the post-loop verification computes
`size - bytes_transferred` on u64, which underflows — a panic in debug
builds (the `underflowPanic` outcome), wraparound in release — instead
of a clean error; the Int difference is negative. -/
theorem c10_resume_overshoot_underflow :
    ∀ (w : FileWorld) (opts : Opts) (stats : Stats) (f d : FsFile),
    w.src = some f → w.dstExisting = some d →
    opts.resume = true → w.seekOk = true →
    f.content.length < d.content.length →
    (copy_file w opts stats).result = .error .underflowPanic ∧
    (copy_file w opts stats).localCount = d.content.length ∧
    (copy_file w opts stats).seeded = d.content.length ∧
    (copy_file w opts stats).stats.transferred = stats.transferred + d.content.length ∧
    ((f.content.length : Int) - ((copy_file w opts stats).localCount : Int) < 0) := by
  intro w opts stats f d hsrc hdst hres hseek hlen
  have hroute : copy_file w opts stats =
      copy_file_loop w opts { stats with transferred := stats.transferred + d.content.length }
        f (openDst f (some d) true) d.content.length d.content.length := by
    unfold copy_file copy_file_body
    simp only [hsrc, hdst, hres, hseek, Bool.not_true, Bool.and_false, Bool.false_eq_true,
      if_false, if_true]
  rw [hroute, copy_file_loop_overshoot (Or.inl rfl) hlen]
  refine ⟨rfl, rfl, rfl, rfl, ?_⟩
  simp only []
  omega

theorem c10_resume_overshoot_underflow_witness :
    (copy_file ⟨some ⟨[5], 0⟩, some ⟨[1, 2, 3], 0⟩, true, true, true⟩
        ⟨8, false, false, false, false, false, false, false, true⟩ ⟨0, 1⟩).result =
      .error .underflowPanic ∧
    (copy_file ⟨some ⟨[5], 0⟩, some ⟨[1, 2, 3], 0⟩, true, true, true⟩
        ⟨8, false, false, false, false, false, false, false, true⟩ ⟨0, 1⟩).localCount = 3 := by
  have h := c10_resume_overshoot_underflow
    ⟨some ⟨[5], 0⟩, some ⟨[1, 2, 3], 0⟩, true, true, true⟩
    ⟨8, false, false, false, false, false, false, false, true⟩ ⟨0, 1⟩
    ⟨[5], 0⟩ ⟨[1, 2, 3], 0⟩ rfl rfl rfl rfl (by decide)
  exact ⟨h.1, h.2.1⟩

/-- C2: the claim (and spec step 4) says the non-resume destination open
is in truncate/create mode so the final content is byte-identical to the
source.  The code passes `create(true).write(true)` but never `truncate`
(filecopy.rs:323), so a force-overwrite of a 1-byte source onto an
existing 3-byte destination succeeds, passes the byte-count check, syncs
permissions — and leaves the destination as [9, 2, 3], the source byte
followed by the stale tail, which differs from the source content. -/
theorem c2_force_overwrite_leaves_stale_tail :
    (copy_file ⟨some ⟨[9], 420⟩, some ⟨[1, 2, 3], 384⟩, true, true, true⟩
        ⟨8, true, false, false, false, false, false, false, false⟩ ⟨0, 1⟩).result = .ok 1 ∧
    (copy_file ⟨some ⟨[9], 420⟩, some ⟨[1, 2, 3], 384⟩, true, true, true⟩
        ⟨8, true, false, false, false, false, false, false, false⟩ ⟨0, 1⟩).dst =
      some ⟨[9, 2, 3], 420⟩ ∧
    ([9, 2, 3] : List Nat) ≠ [9] := by
  have hroute : copy_file ⟨some ⟨[9], 420⟩, some ⟨[1, 2, 3], 384⟩, true, true, true⟩
      ⟨8, true, false, false, false, false, false, false, false⟩ ⟨0, 1⟩ =
      copy_file_loop ⟨some ⟨[9], 420⟩, some ⟨[1, 2, 3], 384⟩, true, true, true⟩
        ⟨8, true, false, false, false, false, false, false, false⟩ ⟨0, 1⟩
        ⟨[9], 420⟩ ⟨[1, 2, 3], 0, false, 384⟩ 0 0 := by
    unfold copy_file copy_file_body openDst
    simp only [Bool.not_true, Bool.not_false, Bool.and_false, Bool.false_eq_true, if_false]
    rw [if_neg (by decide)]
  rw [hroute, copy_file_loop_run (by decide) (Or.inr (by decide)) (by decide)]
  refine ⟨?_, ?_, by decide⟩
  · rfl
  · simp only [if_pos rfl]
    rfl

/-- C4: resume correctness.  For an N-byte source whose first K bytes
already reached the destination, running copy_file with resume enabled
seeks the source to the destination length K, seeds both the local and
the global transferred counters with K, transfers exactly bytes [K, N)
in append mode completing the destination to the full source content,
syncs the mode, and returns N; a seek failure yields the seek error. -/
theorem c4_resume_correctness :
    ∀ (w : FileWorld) (opts : Opts) (stats : Stats) (f : FsFile) (K m : Nat),
    w.src = some f →
    w.dstExisting = some ⟨f.content.take K, m⟩ →
    K ≤ f.content.length →
    opts.resume = true →
    0 < opts.block_size →
    w.permOk = true →
    ((w.seekOk = true →
      (copy_file w opts stats).result = .ok f.content.length ∧
      (copy_file w opts stats).dst = some ⟨f.content, f.mode⟩ ∧
      (copy_file w opts stats).seeded = K ∧
      (copy_file w opts stats).localCount = f.content.length ∧
      (copy_file w opts stats).stats.transferred = stats.transferred + f.content.length ∧
      (copy_file w opts stats).stats.total = stats.total)
    ∧ (w.seekOk = false → (copy_file w opts stats).result = .error .seekFail)) := by
  intro w opts stats f K m hsrc hdst hK hres hb hperm
  have hKlen : (f.content.take K).length = K := by
    rw [List.length_take]
    omega
  constructor
  · intro hseek
    have hroute : copy_file w opts stats =
        copy_file_loop w opts
          { stats with transferred := stats.transferred + (f.content.take K).length }
          f (openDst f (some ⟨f.content.take K, m⟩) true) (f.content.take K).length
          (f.content.take K).length := by
      unfold copy_file copy_file_body
      simp only [hsrc, hdst, hres, hseek, Bool.not_true, Bool.and_false, Bool.false_eq_true,
        if_false, if_true]
    rw [hroute, copy_file_loop_run hb (Or.inl rfl) (by rw [hKlen]; omega)]
    rw [if_pos hperm]
    have hwb : (writeBytes (openDst f (some ⟨f.content.take K, m⟩) true)
        (f.content.drop (f.content.take K).length)).content = f.content := by
      unfold openDst writeBytes
      rw [if_pos rfl]
      simp only [hKlen]
      exact List.take_append_drop K f.content
    refine ⟨rfl, ?_, ?_, rfl, ?_, rfl⟩
    · rw [hwb]
    · exact hKlen
    · simp only [hKlen]
      omega
  · intro hseek
    unfold copy_file copy_file_body
    simp only [hsrc, hdst, hres, hseek, Bool.not_true, Bool.and_false, Bool.false_eq_true,
      if_false, if_true]

theorem c4_resume_correctness_witness :
    (copy_file ⟨some ⟨[7, 8], 6⟩, some ⟨[7], 5⟩, true, true, true⟩
        ⟨4, false, false, false, false, false, false, false, true⟩ ⟨0, 2⟩).result = .ok 2 ∧
    (copy_file ⟨some ⟨[7, 8], 6⟩, some ⟨[7], 5⟩, true, true, true⟩
        ⟨4, false, false, false, false, false, false, false, true⟩ ⟨0, 2⟩).dst =
      some ⟨[7, 8], 6⟩ ∧
    (copy_file ⟨some ⟨[7, 8], 6⟩, some ⟨[7], 5⟩, true, true, true⟩
        ⟨4, false, false, false, false, false, false, false, true⟩ ⟨0, 2⟩).seeded = 1 ∧
    (copy_file ⟨some ⟨[7, 8], 6⟩, some ⟨[7], 5⟩, true, true, true⟩
        ⟨4, false, false, false, false, false, false, false, true⟩ ⟨0, 2⟩).stats.transferred
      = 2 := by
  have h := (c4_resume_correctness
    ⟨some ⟨[7, 8], 6⟩, some ⟨[7], 5⟩, true, true, true⟩
    ⟨4, false, false, false, false, false, false, false, true⟩ ⟨0, 2⟩
    ⟨[7, 8], 6⟩ 1 5 rfl rfl (by decide) rfl (by decide) rfl).1 rfl
  exact ⟨h.1, h.2.1, h.2.2.1, h.2.2.2.2.1⟩

/-! ## Directory copy and orchestrator (filecopy.rs:106-260)

`copy_directory` is driven by the walker result (a list of walked
`DirFile` entries, each paired with the `FileWorld` of the copy_file
call it leads to) and a `deleteDirOk` oracle for the final
`delete_dir_recursive` of move mode.  `processed` is a ghost count of
how many files the loop invoked copy_file on. -/

structure DirOut where
  result : Except CopyErr Unit
  stats : Stats
  processed : Nat
deriving Repr

/-- The per-file loop of copy_directory (filecopy.rs:115-134): a failed
copy aborts with the error unless `no_dir_err`, in which case it is
logged and skipped; after a successful copy, move mode removes the
source file, a removal failure being fatal unless `no_dir_err`. -/
def dirLoop (files : List (DirFile × FileWorld)) (opts : Opts) (stats : Stats) : DirOut :=
  match files with
  | [] => ⟨.ok (), stats, 0⟩
  | (_, fw) :: rest =>
    let r := copy_file fw opts stats
    match r.result with
    | .error e =>
      if !opts.no_dir_err then ⟨.error e, r.stats, 1⟩
      else
        let o := dirLoop rest opts r.stats
        ⟨o.result, o.stats, o.processed + 1⟩
    | .ok _ =>
      if opts.remove && !fw.removeOk then
        if !opts.no_dir_err then ⟨.error .removeSrcFail, r.stats, 1⟩
        else
          let o := dirLoop rest opts r.stats
          ⟨o.result, o.stats, o.processed + 1⟩
      else
        let o := dirLoop rest opts r.stats
        ⟨o.result, o.stats, o.processed + 1⟩

/-- Embedding of `copy_directory` (filecopy.rs:106-148): list the tree
(propagating a listing error), pre-add every listed file size to the
stats total, run the per-file loop, and in move mode finish by deleting
the source tree (a deletion failure is fatal). -/
def copy_directory (walk : Except WalkErr (List (DirFile × FileWorld)))
    (deleteDirOk : Bool) (opts : Opts) (stats : Stats) : DirOut :=
  match walk with
  | .error e => ⟨.error (.listDirFail e), stats, 0⟩
  | .ok filelist =>
    let stats1 : Stats :=
      { stats with total := stats.total + (filelist.map (fun p => p.1.size)).sum }
    let o := dirLoop filelist opts stats1
    match o.result with
    | .error _ => o
    | .ok _ =>
      if opts.remove then
        if deleteDirOk then ⟨.ok (), o.stats, o.processed⟩
        else ⟨.error .deleteDirFail, o.stats, o.processed⟩
      else o

/-- The stat result for the source path: a regular file (with the
`stat` length used to pre-set the stats total, plus the world of the
copy_file call) or a directory (with the walker outcome and the
delete oracle for move mode). -/
inductive SrcNode where
  | file (statLen : Nat) (fw : FileWorld)
  | dir (walk : Except WalkErr (List (DirFile × FileWorld))) (deleteDirOk : Bool)

def SrcNode.isDirN : SrcNode → Bool
  | .file _ _ => false
  | .dir _ _ => true

structure CopyWorld where
  samePath : Bool
  src : Option SrcNode
  dstStat : Option Bool
  removeSrcOk : Bool

/-- The dispatch phase of `copy` (filecopy.rs:207-227): directory copy,
or single-file copy with the stats total pre-set to the stat length,
followed in move mode by removal of the source file. -/
def copy_dispatch (node : SrcNode) (w : CopyWorld) (opts : Opts) (stats : Stats) :
    Except CopyErr Stats :=
  match node with
  | .dir walk deleteDirOk =>
    let o := copy_directory walk deleteDirOk opts stats
    match o.result with
    | .error e => .error e
    | .ok _ => .ok o.stats
  | .file statLen fw =>
    let r := copy_file fw opts { stats with total := statLen }
    match r.result with
    | .error e => .error e
    | .ok _ =>
      if opts.remove && !w.removeSrcOk then .error .removeSrcFail
      else .ok r.stats

/-- Embedding of `copy` (filecopy.rs:152-260): the same-path check, the
source stat, the recursive-flag check, the destination retarget (a pure
path computation, not modelled) with its dir-over-file check, the
dispatch, and finally the transferred-equals-total verification (the
timing and statistics printing have no modelled effect). -/
def copy (w : CopyWorld) (opts : Opts) (stats : Stats) : Except CopyErr Unit × Stats :=
  if w.samePath then (.error .sameSrcDst, stats)
  else
    match w.src with
    | none => (.error .statSrcFail, stats)
    | some node =>
      if node.isDirN && !opts.recursive then (.error .notRecursive, stats)
      else if (match w.dstStat with
          | some false => node.isDirN
          | _ => false) then (.error .dirOverFile, stats)
      else
        match copy_dispatch node w opts stats with
        | .error e => (.error e, stats)
        | .ok s =>
          if s.transferred ≠ s.total then
            (.error (.statsMismatch s.transferred s.total), s)
          else (.ok (), s)

lemma copyLoop_shift_aux (src : List Nat) (block_size size : Nat) :
    ∀ (fuel pos bt t : Nat) (dst : DstFile), src.length - pos ≤ fuel →
    copyLoop src block_size size ⟨pos, bt, t, dst⟩ =
      ⟨(copyLoop src block_size size ⟨pos, bt, 0, dst⟩).pos,
        (copyLoop src block_size size ⟨pos, bt, 0, dst⟩).bytes_transferred,
        t + (copyLoop src block_size size ⟨pos, bt, 0, dst⟩).transferred,
        (copyLoop src block_size size ⟨pos, bt, 0, dst⟩).dst⟩ := by
  intro fuel
  induction fuel with
  | zero =>
    intro pos bt t dst hf
    have hfst := copy_n_det_fst block_size src pos dst
    have h0 : (copy_n_det src pos dst block_size).1 = 0 := by omega
    conv_lhs => unfold copyLoop
    conv_rhs => unfold copyLoop
    dsimp only
    rw [dif_pos (Or.inl h0), dif_pos (Or.inl h0)]
    simp
  | succ fuel ih =>
    intro pos bt t dst hf
    conv_lhs => unfold copyLoop
    conv_rhs => unfold copyLoop
    dsimp only
    simp only [Nat.zero_add]
    by_cases hbr : (copy_n_det src pos dst block_size).1 = 0 ∨ bt = size
    · rw [dif_pos hbr, dif_pos hbr]
      simp
    · rw [dif_neg hbr, dif_neg hbr]
      have hfst := copy_n_det_fst block_size src pos dst
      have hd : src.length - (pos + (copy_n_det src pos dst block_size).1) ≤ fuel := by
        simp only [not_or] at hbr
        omega
      rw [ih (pos + (copy_n_det src pos dst block_size).1)
        (bt + (copy_n_det src pos dst block_size).1)
        (t + (copy_n_det src pos dst block_size).1)
        (copy_n_det src pos dst block_size).2 hd]
      rw [ih (pos + (copy_n_det src pos dst block_size).1)
        (bt + (copy_n_det src pos dst block_size).1)
        ((copy_n_det src pos dst block_size).1)
        (copy_n_det src pos dst block_size).2 hd]
      simp only [LoopState.mk.injEq, true_and]
      exact ⟨by omega, trivial⟩

lemma copy_file_loop_shift (w : FileWorld) (opts : Opts) (srcF : FsFile) (dst0 : DstFile)
    (pos0 seed : Nat) (s1 s2 : Stats) :
    (copy_file_loop w opts s1 srcF dst0 pos0 seed).result =
      (copy_file_loop w opts s2 srcF dst0 pos0 seed).result ∧
    (copy_file_loop w opts s1 srcF dst0 pos0 seed).dst =
      (copy_file_loop w opts s2 srcF dst0 pos0 seed).dst ∧
    (copy_file_loop w opts s1 srcF dst0 pos0 seed).localCount =
      (copy_file_loop w opts s2 srcF dst0 pos0 seed).localCount ∧
    (copy_file_loop w opts s1 srcF dst0 pos0 seed).stats.total = s1.total ∧
    (copy_file_loop w opts s1 srcF dst0 pos0 seed).stats.transferred + s2.transferred =
      (copy_file_loop w opts s2 srcF dst0 pos0 seed).stats.transferred + s1.transferred := by
  unfold copy_file_loop
  rw [show (⟨pos0, seed, s1.transferred, dst0⟩ : LoopState) =
    ⟨pos0, seed, s1.transferred, dst0⟩ from rfl]
  rw [copyLoop_shift_aux srcF.content opts.block_size srcF.content.length
    (srcF.content.length - pos0) pos0 seed s1.transferred dst0 (le_refl _)]
  rw [copyLoop_shift_aux srcF.content opts.block_size srcF.content.length
    (srcF.content.length - pos0) pos0 seed s2.transferred dst0 (le_refl _)]
  unfold copy_file_verify
  dsimp only
  by_cases h1 : (copyLoop srcF.content opts.block_size srcF.content.length
      ⟨pos0, seed, 0, dst0⟩).bytes_transferred ≠ srcF.content.length
  · rw [if_pos h1, if_pos h1]
    by_cases h2 : srcF.content.length < (copyLoop srcF.content opts.block_size
        srcF.content.length ⟨pos0, seed, 0, dst0⟩).bytes_transferred
    · rw [if_pos h2, if_pos h2]
      exact ⟨rfl, rfl, rfl, rfl, by dsimp only; omega⟩
    · rw [if_neg h2, if_neg h2]
      exact ⟨rfl, rfl, rfl, rfl, by dsimp only; omega⟩
  · rw [if_neg h1, if_neg h1]
    by_cases h3 : (!w.permOk) = true
    · rw [if_pos h3, if_pos h3]
      exact ⟨rfl, rfl, rfl, rfl, by dsimp only; omega⟩
    · rw [if_neg h3, if_neg h3]
      exact ⟨rfl, rfl, rfl, rfl, by dsimp only; omega⟩

lemma copy_file_body_shift (w : FileWorld) (opts : Opts) (srcF : FsFile)
    (dmeta : Option FsFile) (s : Stats) :
    (copy_file_body w opts s srcF dmeta).result =
      (copy_file_body w opts ⟨0, 0⟩ srcF dmeta).result ∧
    (copy_file_body w opts s srcF dmeta).dst =
      (copy_file_body w opts ⟨0, 0⟩ srcF dmeta).dst ∧
    (copy_file_body w opts s srcF dmeta).localCount =
      (copy_file_body w opts ⟨0, 0⟩ srcF dmeta).localCount ∧
    (copy_file_body w opts s srcF dmeta).stats.total = s.total ∧
    (copy_file_body w opts s srcF dmeta).stats.transferred =
      s.transferred + (copy_file_body w opts ⟨0, 0⟩ srcF dmeta).stats.transferred := by
  unfold copy_file_body
  cases dmeta with
  | none =>
    dsimp only
    have h := copy_file_loop_shift w opts srcF (openDst srcF none opts.resume) 0 0 s ⟨0, 0⟩
    refine ⟨h.1, h.2.1, h.2.2.1, h.2.2.2.1, ?_⟩
    have h5 := h.2.2.2.2
    dsimp only at h5
    omega
  | some d =>
    dsimp only
    cases hres : opts.resume with
    | false =>
      simp only [Bool.false_eq_true, if_false]
      have h := copy_file_loop_shift w opts srcF (openDst srcF (some d) false) 0 0 s ⟨0, 0⟩
      refine ⟨h.1, h.2.1, h.2.2.1, h.2.2.2.1, ?_⟩
      have h5 := h.2.2.2.2
      dsimp only at h5
      omega
    | true =>
      simp only [if_true]
      cases hseek : w.seekOk with
      | false =>
        simp only [Bool.false_eq_true, if_false]
        simp
      | true =>
        simp only [if_true]
        have h := copy_file_loop_shift w opts srcF (openDst srcF (some d) true)
          d.content.length d.content.length
          { s with transferred := s.transferred + d.content.length }
          { transferred := 0 + d.content.length, total := 0 }
        refine ⟨h.1, h.2.1, h.2.2.1, h.2.2.2.1, ?_⟩
        have h5 := h.2.2.2.2
        dsimp only at h5
        omega

/-- The result of a copy_file call, and the amount it adds to the global
transferred counter, do not depend on the incoming stats value (copy_file
only accumulates into the stats store, never reads it). -/
lemma copy_file_stats_shift (w : FileWorld) (opts : Opts) (s : Stats) :
    (copy_file w opts s).result = (copy_file w opts ⟨0, 0⟩).result ∧
    (copy_file w opts s).dst = (copy_file w opts ⟨0, 0⟩).dst ∧
    (copy_file w opts s).localCount = (copy_file w opts ⟨0, 0⟩).localCount ∧
    (copy_file w opts s).stats.total = s.total ∧
    (copy_file w opts s).stats.transferred =
      s.transferred + (copy_file w opts ⟨0, 0⟩).stats.transferred := by
  unfold copy_file
  cases hsrc : w.src with
  | none => simp
  | some srcF =>
    cases hdst : w.dstExisting with
    | none => exact copy_file_body_shift w opts srcF none s
    | some dmeta =>
      dsimp only
      by_cases hguard : (!opts.force && !opts.resume) = true
      · rw [if_pos hguard, if_pos hguard]
        simp
      · rw [if_neg hguard, if_neg hguard]
        exact copy_file_body_shift w opts srcF (some dmeta) s

/-- The value copy_file returns, at any stats. -/
def fileResult (fw : FileWorld) (opts : Opts) : Except CopyErr Nat :=
  (copy_file fw opts ⟨0, 0⟩).result

/-- The amount a copy_file call adds to the global transferred counter. -/
def fileAdd (fw : FileWorld) (opts : Opts) : Nat :=
  (copy_file fw opts ⟨0, 0⟩).stats.transferred

lemma dirLoop_total : ∀ (files : List (DirFile × FileWorld)) (opts : Opts) (s : Stats),
    (dirLoop files opts s).stats.total = s.total := by
  intro files
  induction files with
  | nil => intro opts s; rfl
  | cons p rest ih =>
    intro opts s
    rcases p with ⟨df, fw⟩
    unfold dirLoop
    dsimp only
    have hTot : (copy_file fw opts s).stats.total = s.total :=
      (copy_file_stats_shift fw opts s).2.2.2.1
    rcases hres : (copy_file fw opts s).result with e | k
    · simp only [hres]
      by_cases hnd : (!opts.no_dir_err) = true
      · rw [if_pos hnd]
        exact hTot
      · rw [if_neg hnd]
        dsimp only
        rw [ih, hTot]
    · simp only [hres]
      by_cases hrem : (opts.remove && !fw.removeOk) = true
      · rw [if_pos hrem]
        by_cases hnd : (!opts.no_dir_err) = true
        · rw [if_pos hnd]
          exact hTot
        · rw [if_neg hnd]
          dsimp only
          rw [ih, hTot]
      · rw [if_neg hrem]
        dsimp only
        rw [ih, hTot]

lemma dirLoop_all (opts : Opts) (hnde : opts.no_dir_err = true) :
    ∀ (files : List (DirFile × FileWorld)) (s : Stats),
    (dirLoop files opts s).processed = files.length ∧
    (dirLoop files opts s).stats.transferred =
      s.transferred + (files.map (fun p => fileAdd p.2 opts)).sum ∧
    (opts.remove = false → (dirLoop files opts s).result = .ok ()) := by
  intro files
  induction files with
  | nil => intro s; exact ⟨rfl, by simp [dirLoop], fun _ => rfl⟩
  | cons p rest ih =>
    intro s
    rcases p with ⟨df, fw⟩
    unfold dirLoop
    dsimp only
    have hnd : (!opts.no_dir_err) = false := by simp [hnde]
    have hsh := copy_file_stats_shift fw opts s
    have hTr : (copy_file fw opts s).stats.transferred = s.transferred + fileAdd fw opts :=
      hsh.2.2.2.2
    rcases hres : (copy_file fw opts s).result with e | k
    · simp only [hres]
      rw [if_neg (by simp [hnd])]
      dsimp only
      refine ⟨by rw [(ih _).1]; simp, ?_, fun hrm => (ih _).2.2 hrm⟩
      rw [(ih _).2.1, hTr]
      simp only [List.map_cons, List.sum_cons]
      omega
    · simp only [hres]
      by_cases hrem : (opts.remove && !fw.removeOk) = true
      · rw [if_pos hrem, if_neg (by simp [hnd])]
        dsimp only
        refine ⟨by rw [(ih _).1]; simp, ?_, fun hrm => (ih _).2.2 hrm⟩
        rw [(ih _).2.1, hTr]
        simp only [List.map_cons, List.sum_cons]
        omega
      · rw [if_neg hrem]
        dsimp only
        refine ⟨by rw [(ih _).1]; simp, ?_, fun hrm => (ih _).2.2 hrm⟩
        rw [(ih _).2.1, hTr]
        simp only [List.map_cons, List.sum_cons]
        omega

lemma dirLoop_first_fail (opts : Opts) (hnde : opts.no_dir_err = false) :
    ∀ (good : List (DirFile × FileWorld)) (bad : DirFile × FileWorld)
      (rest : List (DirFile × FileWorld)) (e : CopyErr) (s : Stats),
    (∀ p ∈ good, (∃ k, fileResult p.2 opts = .ok k) ∧
      (opts.remove = true → p.2.removeOk = true)) →
    fileResult bad.2 opts = .error e →
    (dirLoop (good ++ bad :: rest) opts s).result = .error e ∧
    (dirLoop (good ++ bad :: rest) opts s).processed = good.length + 1 := by
  intro good
  induction good with
  | nil =>
    intro bad rest e s _ hbad
    rcases bad with ⟨df, fw⟩
    rw [List.nil_append]
    unfold dirLoop
    dsimp only
    have hr : (copy_file fw opts s).result = .error e := by
      rw [(copy_file_stats_shift fw opts s).1]
      exact hbad
    simp only [hr]
    rw [if_pos (by simp [hnde])]
    exact ⟨rfl, rfl⟩
  | cons g good ih =>
    intro bad rest e s hgood hbad
    rcases g with ⟨df, fw⟩
    rw [List.cons_append]
    unfold dirLoop
    dsimp only
    obtain ⟨⟨k, hk⟩, hrm⟩ := hgood ⟨df, fw⟩ (by simp)
    have hr : (copy_file fw opts s).result = .ok k := by
      rw [(copy_file_stats_shift fw opts s).1]
      exact hk
    simp only [hr]
    have hremfalse : (opts.remove && !fw.removeOk) = false := by
      cases hrm2 : opts.remove with
      | false => simp [hrm2]
      | true =>
        have hok : fw.removeOk = true := hrm hrm2
        simp [hrm2, hok]
    rw [if_neg (by simp [hremfalse])]
    dsimp only
    have hrec := ih bad rest e (copy_file fw opts s).stats
      (fun p hp => hgood p (by simp [hp])) hbad
    refine ⟨hrec.1, ?_⟩
    rw [hrec.2]
    simp

lemma copy_directory_stats (files : List (DirFile × FileWorld)) (deleteDirOk : Bool)
    (opts : Opts) (s : Stats) :
    (copy_directory (.ok files) deleteDirOk opts s).stats =
      (dirLoop files opts
        { s with total := s.total + (files.map (fun p => p.1.size)).sum }).stats := by
  unfold copy_directory
  dsimp only
  rcases hres : (dirLoop files opts
      { s with total := s.total + (files.map (fun p => p.1.size)).sum }).result with e | u
  · simp only [hres]
  · simp only [hres]
    split
    · split <;> rfl
    · rfl

lemma copy_directory_processed (files : List (DirFile × FileWorld)) (deleteDirOk : Bool)
    (opts : Opts) (s : Stats) :
    (copy_directory (.ok files) deleteDirOk opts s).processed =
      (dirLoop files opts
        { s with total := s.total + (files.map (fun p => p.1.size)).sum }).processed := by
  unfold copy_directory
  dsimp only
  rcases hres : (dirLoop files opts
      { s with total := s.total + (files.map (fun p => p.1.size)).sum }).result with e | u
  · simp only [hres]
  · simp only [hres]
    split
    · split <;> rfl
    · rfl

lemma copy_directory_err (files : List (DirFile × FileWorld)) (deleteDirOk : Bool)
    (opts : Opts) (s : Stats) (e : CopyErr)
    (hres : (dirLoop files opts
      { s with total := s.total + (files.map (fun p => p.1.size)).sum }).result = .error e) :
    (copy_directory (.ok files) deleteDirOk opts s).result = .error e := by
  unfold copy_directory
  dsimp only
  simp only [hres]

lemma copy_directory_ok (files : List (DirFile × FileWorld)) (deleteDirOk : Bool)
    (opts : Opts) (s : Stats)
    (hres : (dirLoop files opts
      { s with total := s.total + (files.map (fun p => p.1.size)).sum }).result = .ok ())
    (hrem : opts.remove = false) :
    (copy_directory (.ok files) deleteDirOk opts s).result = .ok () := by
  unfold copy_directory
  dsimp only
  simp only [hres, hrem]
  exact hres

/-- C6: directory-copy error policy.  The shared stats total is
incremented by the sum of all listed file sizes up front, whatever the
loop later does; with `no_dir_err` set every file is still attempted
(processed = all files); without it, the first failing file (all earlier
files succeeding, and their move-mode removals succeeding) makes
copy_directory return that error having processed only the files up to
and including the failing one. -/
theorem c6_copy_directory_policy :
    ∀ (files : List (DirFile × FileWorld)) (deleteDirOk : Bool) (opts : Opts) (s : Stats),
    ((copy_directory (.ok files) deleteDirOk opts s).stats.total =
      s.total + (files.map (fun p => p.1.size)).sum)
    ∧ (opts.no_dir_err = true →
        (copy_directory (.ok files) deleteDirOk opts s).processed = files.length)
    ∧ (∀ (good : List (DirFile × FileWorld)) (bad : DirFile × FileWorld)
        (rest : List (DirFile × FileWorld)) (e : CopyErr),
        opts.no_dir_err = false →
        files = good ++ bad :: rest →
        (∀ p ∈ good, (∃ k, fileResult p.2 opts = .ok k) ∧
          (opts.remove = true → p.2.removeOk = true)) →
        fileResult bad.2 opts = .error e →
        (copy_directory (.ok files) deleteDirOk opts s).result = .error e ∧
        (copy_directory (.ok files) deleteDirOk opts s).processed = good.length + 1) := by
  intro files deleteDirOk opts s
  refine ⟨?_, ?_, ?_⟩
  · rw [copy_directory_stats, dirLoop_total]
  · intro hnde
    rw [copy_directory_processed]
    exact (dirLoop_all opts hnde files _).1
  · intro good bad rest e hnde hsplit hgood hbad
    subst hsplit
    have h := dirLoop_first_fail opts hnde good bad rest e
      { s with total := s.total + (((good ++ bad :: rest).map (fun p => p.1.size)).sum) }
      hgood hbad
    exact ⟨copy_directory_err _ _ _ _ _ h.1, by rw [copy_directory_processed]; exact h.2⟩

theorem c6_copy_directory_policy_witness :
    ((copy_directory (.ok [(⟨"b", 2⟩, ⟨none, none, true, true, true⟩)]) true
        ⟨8, false, false, true, false, false, false, false, false⟩ ⟨0, 0⟩).stats.total = 0 + 2)
    ∧ ((copy_directory (.ok [(⟨"b", 2⟩, ⟨none, none, true, true, true⟩)]) true
        ⟨8, false, false, true, false, false, true, false, false⟩ ⟨0, 0⟩).processed = 1)
    ∧ ((copy_directory (.ok [(⟨"b", 2⟩, ⟨none, none, true, true, true⟩)]) true
        ⟨8, false, false, true, false, false, false, false, false⟩ ⟨0, 0⟩).result =
          .error .openSrcFail) := by
  refine ⟨?_, ?_, ?_⟩
  · have h := (c6_copy_directory_policy [(⟨"b", 2⟩, ⟨none, none, true, true, true⟩)] true
      ⟨8, false, false, true, false, false, false, false, false⟩ ⟨0, 0⟩).1
    simpa using h
  · exact (c6_copy_directory_policy [(⟨"b", 2⟩, ⟨none, none, true, true, true⟩)] true
      ⟨8, false, false, true, false, false, true, false, false⟩ ⟨0, 0⟩).2.1 rfl
  · exact ((c6_copy_directory_policy [(⟨"b", 2⟩, ⟨none, none, true, true, true⟩)] true
      ⟨8, false, false, true, false, false, false, false, false⟩ ⟨0, 0⟩).2.2
      [] (⟨"b", 2⟩, ⟨none, none, true, true, true⟩) [] .openSrcFail rfl rfl
      (by intro p hp; cases hp) rfl).1

lemma copy_file_local_missing (w : FileWorld) (opts : Opts) (s : Stats) (f : FsFile)
    (hsrc : w.src = some f)
    (hguard : w.dstExisting = none ∨ opts.force = true ∨ opts.resume = true)
    (hseek : ∀ d, w.dstExisting = some d → opts.resume = true → w.seekOk = true)
    (hlt : (copy_file w opts s).localCount < f.content.length) :
    (copy_file w opts s).result =
      .error (.missingBytes (f.content.length - (copy_file w opts s).localCount)) := by
  obtain ⟨s2, dst0, pos0, hroute⟩ := copy_file_routes w opts s f hsrc hguard hseek
  rw [hroute] at hlt ⊢
  unfold copy_file_loop at hlt ⊢
  rw [copy_file_verify_localCount] at hlt
  rw [copy_file_verify_missing _ _ _ _ _ hlt, copy_file_verify_localCount]

/-- C3 (amended): byte accounting at two granularities.  copy_file fails
with an I/O error reporting the exact missing byte count whenever its
local transferred count is UNDER the source size (a count over the size
instead underflows the u64 subtraction and panics, see the
counterexample); copy returns Ok only when global transferred equals
global total; and when the dispatch phase succeeds but the totals
mismatch, copy fails with the consistency error even though no
lower-level call reported failure. -/
theorem c3_byte_accounting_amended :
    (∀ (w : FileWorld) (opts : Opts) (s : Stats) (f : FsFile),
      w.src = some f →
      (w.dstExisting = none ∨ opts.force = true ∨ opts.resume = true) →
      (∀ d, w.dstExisting = some d → opts.resume = true → w.seekOk = true) →
      (copy_file w opts s).localCount < f.content.length →
      (copy_file w opts s).result =
        .error (.missingBytes (f.content.length - (copy_file w opts s).localCount)))
    ∧ (∀ (cw : CopyWorld) (opts : Opts) (s0 s : Stats),
      copy cw opts s0 = (.ok (), s) → s.transferred = s.total)
    ∧ (∀ (cw : CopyWorld) (opts : Opts) (s0 : Stats) (node : SrcNode) (s : Stats),
      cw.samePath = false → cw.src = some node →
      (node.isDirN && !opts.recursive) = false →
      (match cw.dstStat with | some false => node.isDirN | _ => false) = false →
      copy_dispatch node cw opts s0 = .ok s →
      s.transferred ≠ s.total →
      copy cw opts s0 = (.error (.statsMismatch s.transferred s.total), s)) := by
  refine ⟨copy_file_local_missing, ?_, ?_⟩
  · intro cw opts s0 s h
    unfold copy at h
    split at h
    · simp at h
    · split at h
      · simp at h
      · split at h
        · simp at h
        · split at h
          · simp at h
          · split at h
            · simp at h
            · rename_i s' heq
              split at h
              · simp at h
              · rename_i hcond
                simp only [Prod.mk.injEq] at h
                rw [← h.2]
                omega
  · intro cw opts s0 node s hsp hsrc hrec hdst hdisp hne
    unfold copy
    rw [if_neg (by simp [hsp])]
    simp only [hsrc]
    rw [if_neg (by simp [hrec])]
    rw [if_neg (by simp [hdst])]
    simp only [hdisp]
    rw [if_pos hne]

/-- C3 counterexample: a copy_file run (resume onto a 2-byte destination
of a 1-byte source) whose local transferred count (2) differs from the
source size (1) does not produce the missing-byte-count I/O error the
claim promises for every mismatch: it hits the u64 underflow panic. -/
theorem c3_counterexample_overshoot_panics :
    (copy_file ⟨some ⟨[5], 0⟩, some ⟨[1, 2], 0⟩, true, true, true⟩
        ⟨8, false, false, false, false, false, false, false, true⟩ ⟨0, 1⟩).localCount = 2 ∧
    (⟨[5], 0⟩ : FsFile).content.length = 1 ∧
    (copy_file ⟨some ⟨[5], 0⟩, some ⟨[1, 2], 0⟩, true, true, true⟩
        ⟨8, false, false, false, false, false, false, false, true⟩ ⟨0, 1⟩).result =
      .error .underflowPanic := by
  have hroute : copy_file ⟨some ⟨[5], 0⟩, some ⟨[1, 2], 0⟩, true, true, true⟩
      ⟨8, false, false, false, false, false, false, false, true⟩ ⟨0, 1⟩ =
      copy_file_loop ⟨some ⟨[5], 0⟩, some ⟨[1, 2], 0⟩, true, true, true⟩
        ⟨8, false, false, false, false, false, false, false, true⟩
        ⟨0 + 2, 1⟩ ⟨[5], 0⟩ (openDst ⟨[5], 0⟩ (some ⟨[1, 2], 0⟩) true) 2 2 := by
    unfold copy_file copy_file_body
    dsimp only
    rw [if_neg (by decide), if_pos rfl, if_pos rfl]
    rfl
  rw [hroute, copy_file_loop_overshoot (Or.inl rfl) (by decide)]
  exact ⟨rfl, rfl, rfl⟩

theorem c3_byte_accounting_amended_witness :
    (copy_file ⟨some ⟨[1, 2], 0⟩, none, true, true, true⟩
        ⟨0, false, false, false, false, false, false, false, false⟩ ⟨0, 0⟩).result =
      .error (.missingBytes 2) ∧
    (⟨0, 0⟩ : Stats).transferred = (⟨0, 0⟩ : Stats).total ∧
    copy ⟨false, some (.file 5 ⟨some ⟨[], 7⟩, none, true, true, true⟩), none, true⟩
        ⟨8, false, false, false, false, false, false, false, false⟩ ⟨0, 0⟩ =
      (.error (.statsMismatch 0 5), ⟨0, 5⟩) := by
  refine ⟨?_, ?_, ?_⟩
  · have hroute : copy_file ⟨some ⟨[1, 2], 0⟩, none, true, true, true⟩
        ⟨0, false, false, false, false, false, false, false, false⟩ ⟨0, 0⟩ =
        copy_file_loop ⟨some ⟨[1, 2], 0⟩, none, true, true, true⟩
          ⟨0, false, false, false, false, false, false, false, false⟩ ⟨0, 0⟩
          ⟨[1, 2], 0⟩ (openDst ⟨[1, 2], 0⟩ none false) 0 0 := rfl
    have hzb := @copy_file_loop_zero_block ⟨some ⟨[1, 2], 0⟩, none, true, true, true⟩
      ⟨0, false, false, false, false, false, false, false, false⟩ ⟨0, 0⟩
      ⟨[1, 2], 0⟩ (openDst ⟨[1, 2], 0⟩ none false) 0 rfl (by decide)
    have hlc : (copy_file ⟨some ⟨[1, 2], 0⟩, none, true, true, true⟩
        ⟨0, false, false, false, false, false, false, false, false⟩ ⟨0, 0⟩).localCount = 0 := by
      rw [hroute, hzb]
    have h := c3_byte_accounting_amended.1 ⟨some ⟨[1, 2], 0⟩, none, true, true, true⟩
      ⟨0, false, false, false, false, false, false, false, false⟩ ⟨0, 0⟩ ⟨[1, 2], 0⟩
      rfl (Or.inl rfl) (fun d hd => by cases hd) (by rw [hlc]; decide)
    rw [hlc] at h
    exact h
  · have hfile : copy_file ⟨some ⟨[], 7⟩, none, true, true, true⟩
        ⟨8, false, false, false, false, false, false, false, false⟩ ⟨0, 0⟩ =
        ⟨.ok 0, some ⟨[], 7⟩, ⟨0, 0⟩, 0, 0⟩ := by
      have hroute : copy_file ⟨some ⟨[], 7⟩, none, true, true, true⟩
          ⟨8, false, false, false, false, false, false, false, false⟩ ⟨0, 0⟩ =
          copy_file_loop ⟨some ⟨[], 7⟩, none, true, true, true⟩
            ⟨8, false, false, false, false, false, false, false, false⟩ ⟨0, 0⟩
            ⟨[], 7⟩ (openDst ⟨[], 7⟩ none false) 0 0 := rfl
      rw [hroute, copy_file_loop_run (by decide) (Or.inr (by decide)) (by decide)]
      rw [if_pos rfl]
      rfl
    have hcopy : copy ⟨false, some (.file 0 ⟨some ⟨[], 7⟩, none, true, true, true⟩), none, true⟩
        ⟨8, false, false, false, false, false, false, false, false⟩ ⟨0, 0⟩ =
        (.ok (), ⟨0, 0⟩) := by
      unfold copy copy_dispatch
      dsimp only
      simp only [hfile]
      rfl
    exact c3_byte_accounting_amended.2.1 _ _ _ _ hcopy
  · have hfile : copy_file ⟨some ⟨[], 7⟩, none, true, true, true⟩
        ⟨8, false, false, false, false, false, false, false, false⟩ ⟨0, 5⟩ =
        ⟨.ok 0, some ⟨[], 7⟩, ⟨0, 5⟩, 0, 0⟩ := by
      have hroute : copy_file ⟨some ⟨[], 7⟩, none, true, true, true⟩
          ⟨8, false, false, false, false, false, false, false, false⟩ ⟨0, 5⟩ =
          copy_file_loop ⟨some ⟨[], 7⟩, none, true, true, true⟩
            ⟨8, false, false, false, false, false, false, false, false⟩ ⟨0, 5⟩
            ⟨[], 7⟩ (openDst ⟨[], 7⟩ none false) 0 0 := rfl
      rw [hroute, copy_file_loop_run (by decide) (Or.inr (by decide)) (by decide)]
      rw [if_pos rfl]
      rfl
    have hdisp : copy_dispatch (.file 5 ⟨some ⟨[], 7⟩, none, true, true, true⟩)
        ⟨false, some (.file 5 ⟨some ⟨[], 7⟩, none, true, true, true⟩), none, true⟩
        ⟨8, false, false, false, false, false, false, false, false⟩ ⟨0, 0⟩ = .ok ⟨0, 5⟩ := by
      unfold copy_dispatch
      dsimp only
      simp only [hfile]
      rfl
    exact c3_byte_accounting_amended.2.2
      ⟨false, some (.file 5 ⟨some ⟨[], 7⟩, none, true, true, true⟩), none, true⟩
      ⟨8, false, false, false, false, false, false, false, false⟩ ⟨0, 0⟩
      (.file 5 ⟨some ⟨[], 7⟩, none, true, true, true⟩) ⟨0, 5⟩
      rfl rfl rfl rfl hdisp (by decide)

/-- C9 (amended): with ignore-directory-errors set (and no move), the
top-level copy returns the whole-operation consistency error whenever
the per-file contributions to the global transferred counter do not add
up to the precomputed total of listed sizes — in particular when a
skipped file transferred nothing; but a file that failed only after its
full byte count was accumulated escapes the check (see the
counterexample). -/
theorem c9_skipped_file_mismatch_amended :
    ∀ (cw : CopyWorld) (opts : Opts) (files : List (DirFile × FileWorld)) (ddOk : Bool),
    cw.samePath = false →
    cw.src = some (.dir (.ok files) ddOk) →
    opts.recursive = true →
    cw.dstStat ≠ some false →
    opts.no_dir_err = true →
    opts.remove = false →
    (files.map (fun p => fileAdd p.2 opts)).sum ≠ (files.map (fun p => p.1.size)).sum →
    copy cw opts ⟨0, 0⟩ =
      (.error (.statsMismatch ((files.map (fun p => fileAdd p.2 opts)).sum)
        ((files.map (fun p => p.1.size)).sum)),
       ⟨(files.map (fun p => fileAdd p.2 opts)).sum, (files.map (fun p => p.1.size)).sum⟩) := by
  intro cw opts files ddOk hsp hsrc hrec hdst hnde hrem hsum
  have hstats : (copy_directory (.ok files) ddOk opts ⟨0, 0⟩).stats =
      ⟨(files.map (fun p => fileAdd p.2 opts)).sum, (files.map (fun p => p.1.size)).sum⟩ := by
    rw [copy_directory_stats]
    have h1 := (dirLoop_all opts hnde files
      { transferred := (⟨0, 0⟩ : Stats).transferred,
        total := (⟨0, 0⟩ : Stats).total + (files.map (fun p => p.1.size)).sum }).2.1
    have h2 := dirLoop_total files opts
      { transferred := (⟨0, 0⟩ : Stats).transferred,
        total := (⟨0, 0⟩ : Stats).total + (files.map (fun p => p.1.size)).sum }
    rcases hst : (dirLoop files opts
      { transferred := (⟨0, 0⟩ : Stats).transferred,
        total := (⟨0, 0⟩ : Stats).total + (files.map (fun p => p.1.size)).sum }).stats
      with ⟨t, tot⟩
    rw [hst] at h1 h2
    dsimp only at h1 h2 ⊢
    rw [Nat.zero_add] at h2
    rw [h1, h2, Nat.zero_add]
  have hdirok : (copy_directory (.ok files) ddOk opts ⟨0, 0⟩).result = .ok () := by
    apply copy_directory_ok
    · exact (dirLoop_all opts hnde files _).2.2 hrem
    · exact hrem
  have hdisp : copy_dispatch (.dir (.ok files) ddOk) cw opts ⟨0, 0⟩ =
      .ok ⟨(files.map (fun p => fileAdd p.2 opts)).sum, (files.map (fun p => p.1.size)).sum⟩ := by
    unfold copy_dispatch
    dsimp only
    simp only [hdirok]
    rw [hstats]
  unfold copy
  rw [if_neg (by simp [hsp])]
  simp only [hsrc]
  rw [if_neg (by simp [SrcNode.isDirN, hrec])]
  have hdcond : (match cw.dstStat with
      | some false => (SrcNode.dir (.ok files) ddOk).isDirN
      | _ => false) = false := by
    rcases hds : cw.dstStat with _ | b
    · rfl
    · cases b
      · exact absurd hds hdst
      · rfl
  rw [if_neg (by simp [hdcond])]
  simp only [hdisp]
  rw [if_pos (show ((⟨(files.map (fun p => fileAdd p.2 opts)).sum,
    (files.map (fun p => p.1.size)).sum⟩ : Stats)).transferred ≠
    ((⟨(files.map (fun p => fileAdd p.2 opts)).sum,
    (files.map (fun p => p.1.size)).sum⟩ : Stats)).total from hsum)]

/-- C9 counterexample: a single-file tree whose copy_file fails (at the
permission sync) only after all its bytes were counted: the file failed
and was skipped under no_dir_err, yet the final byte-accounting check
sees transferred = total = 1 and the top-level copy returns Ok — the
claim says it still returns an error. -/
theorem c9_counterexample_perm_fail_escapes :
    (copy_file ⟨some ⟨[7], 420⟩, none, true, false, true⟩
        ⟨8, false, false, true, false, false, true, false, false⟩ ⟨0, 0⟩).result =
      .error .permSyncFail ∧
    copy ⟨false,
        some (.dir (.ok [(⟨"f", 1⟩, ⟨some ⟨[7], 420⟩, none, true, false, true⟩)]) true),
        none, true⟩
      ⟨8, false, false, true, false, false, true, false, false⟩ ⟨0, 0⟩ = (.ok (), ⟨1, 1⟩) := by
  have hfile : ∀ s : Stats, copy_file ⟨some ⟨[7], 420⟩, none, true, false, true⟩
      ⟨8, false, false, true, false, false, true, false, false⟩ s =
      ⟨.error .permSyncFail, some ⟨[7], 420⟩,
        { s with transferred := s.transferred + 1 }, 1, 0⟩ := by
    intro s
    have hroute : copy_file ⟨some ⟨[7], 420⟩, none, true, false, true⟩
        ⟨8, false, false, true, false, false, true, false, false⟩ s =
        copy_file_loop ⟨some ⟨[7], 420⟩, none, true, false, true⟩
          ⟨8, false, false, true, false, false, true, false, false⟩ s
          ⟨[7], 420⟩ (openDst ⟨[7], 420⟩ none false) 0 0 := rfl
    rw [hroute, copy_file_loop_run (by decide) (Or.inr (by decide)) (by decide)]
    rw [if_neg (by decide)]
    rfl
  have hloop : ∀ s : Stats,
      dirLoop [(⟨"f", 1⟩, ⟨some ⟨[7], 420⟩, none, true, false, true⟩)]
        ⟨8, false, false, true, false, false, true, false, false⟩ s =
      ⟨.ok (), { s with transferred := s.transferred + 1 }, 1⟩ := by
    intro s
    unfold dirLoop
    dsimp only
    simp only [hfile s]
    rfl
  have hdir : copy_directory
      (.ok [(⟨"f", 1⟩, ⟨some ⟨[7], 420⟩, none, true, false, true⟩)]) true
      ⟨8, false, false, true, false, false, true, false, false⟩ ⟨0, 0⟩ =
      ⟨.ok (), ⟨1, 1⟩, 1⟩ := by
    unfold copy_directory
    dsimp only
    simp only [hloop]
    rfl
  refine ⟨by rw [hfile ⟨0, 0⟩], ?_⟩
  unfold copy copy_dispatch
  dsimp only
  simp only [hdir]
  rfl

theorem c9_skipped_file_mismatch_amended_witness :
    copy ⟨false, some (.dir (.ok [(⟨"g", 3⟩, ⟨none, none, true, true, true⟩)]) true),
        none, true⟩
      ⟨8, false, false, true, false, false, true, false, false⟩ ⟨0, 0⟩ =
      (.error (.statsMismatch 0 3), ⟨0, 3⟩) := by
  have h := c9_skipped_file_mismatch_amended
    ⟨false, some (.dir (.ok [(⟨"g", 3⟩, ⟨none, none, true, true, true⟩)]) true), none, true⟩
    ⟨8, false, false, true, false, false, true, false, false⟩
    [(⟨"g", 3⟩, ⟨none, none, true, true, true⟩)] true
    rfl rfl rfl (by simp) rfl rfl (by decide)
  simpa using h

end Filecopy
